import Mathlib

/-!
Verification of the streaming speech-to-text capture/segmentation pipeline
(`speech_to_text.cpp`): the high-pass filter, the simple energy VAD, the
producer-side ingest gate (`add_audio_buffer`), and the worker loop
(`SpeechToText::run`): trigger/idle policy, token-timestamp split heuristic,
and finalization/truncation of the working audio window.

Modelling conventions:
- float arithmetic is modelled exactly over `ℚ` (idealised: no rounding);
  the float constants of the source are taken at face value, except `Math_PI`
  which is modelled by the exact rational value of the IEEE-754 double nearest π;
- byte strings (`std::string`, UTF-8) are modelled as `List ℕ` of byte values.
  The Godot `String(const char *)` constructor used for token texts decodes
  Latin-1, i.e. one character per byte, so `String::length()` of a token text
  equals its byte count; offsets below are therefore all byte offsets;
- machine integers are modelled as `ℤ`/`ℕ` (the values arising in the claims
  are far from any overflow boundary);
- the external ASR engine (whisper.cpp) is an oracle: an iteration receives
  the engine's return code and its segment/token output as an input.
-/

/-- Exact rational value of the IEEE-754 double closest to π, i.e. the value
of `Math_PI` as the source's float expressions see it. -/
def mathPI : ℚ := 884279719003555 / 281474976710656

/-- Model of `fabsf`. -/
def fabsf (x : ℚ) : ℚ := if x < 0 then -x else x

/-- Loop body of `high_pass_filter` (source lines 58-61).  The source updates
the vector in place: at step `i` it computes `y = alpha * (y + data[i] -
data[i-1])` and stores `data[i] = y`.  Consequently, from the second step on,
`data[i-1]` holds the value written by the previous step, which is exactly the
previous `y`.  We therefore carry the accumulator `y` and the value currently
stored at index `i-1` (`prevStored`) through the recursion; after each step the
stored value is the freshly written `y2`. -/
def hpfGo (alpha : ℚ) : ℚ → ℚ → List ℚ → List ℚ
  | _, _, [] => []
  | y, prevStored, x :: rest =>
    let y2 := alpha * (y + x - prevStored)
    y2 :: hpfGo alpha y2 y2 rest

/-- Model of `high_pass_filter(data, cutoff, sample_rate)` (source lines
51-62).  `data[0]` is read as the seed and never overwritten.  The source
indexes `data[0]` unconditionally; the empty case is out of its domain and is
modelled as the empty list (its only caller guards non-emptiness). -/
def high_pass_filter (data : List ℚ) (cutoff sample_rate : ℚ) : List ℚ :=
  let rc : ℚ := 1 / (2 * mathPI * cutoff)
  let dt : ℚ := 1 / sample_rate
  let alpha : ℚ := dt / (rc + dt)
  match data with
  | [] => []
  | x0 :: rest => x0 :: hpfGo alpha x0 x0 rest

/-- Loop body of the filter as the specification describes it: `y[i] =
alpha * (y[i-1] + x[i] - x[i-1])` where `x[i]` and `x[i-1]` are the RAW input
samples.  Written only to be compared against `high_pass_filter`. -/
def hpfSpecGo (alpha : ℚ) : ℚ → ℚ → List ℚ → List ℚ
  | _, _, [] => []
  | y, xprev, x :: rest =>
    let y2 := alpha * (y + x - xprev)
    y2 :: hpfSpecGo alpha y2 x rest

/-- The high-pass filter as the specification words it (raw-input recurrence,
`y[0] = x[0]`).  Written only to be compared against `high_pass_filter`. -/
def high_pass_filter_spec (data : List ℚ) (cutoff sample_rate : ℚ) : List ℚ :=
  let rc : ℚ := 1 / (2 * mathPI * cutoff)
  let dt : ℚ := 1 / sample_rate
  let alpha : ℚ := dt / (rc + dt)
  match data with
  | [] => []
  | x0 :: rest => x0 :: hpfSpecGo alpha x0 x0 rest

/-- Result of a `vad_simple` call: the returned Bool together with the buffer
contents after the call (the source passes the buffer by reference and
`high_pass_filter` mutates it in place when `freq_thold > 0`). -/
structure VadOut where
  ending : Bool
  buf : List ℚ
  deriving DecidableEq

/-- Model of `vad_simple(pcmf32, sample_rate, last_ms, vad_thold, freq_thold)`
(source lines 65-102).  `n_samples_last = sample_rate * last_ms / 1000` in C
integer arithmetic; the early `n_samples_last >= n_samples` return happens
before any filtering.  `energy_last` stays `0` when `n_samples_last == 0`
(the source skips the division).  The final test is literally
`((energy_all < 0.0001f && energy_last < 0.0001f) == false) || energy_last >
vad_thold * energy_all`, which returns `false`; otherwise `true`. -/
def vad_simple (pcmf32 : List ℚ) (sample_rate last_ms : ℕ) (vad_thold freq_thold : ℚ) :
    VadOut :=
  let n_samples := pcmf32.length
  let n_samples_last := sample_rate * last_ms / 1000
  if n_samples ≤ n_samples_last then ⟨false, pcmf32⟩
  else
    let d := if 0 < freq_thold then high_pass_filter pcmf32 freq_thold (sample_rate : ℚ)
      else pcmf32
    let energy_all := ((d.map fabsf).sum) / (n_samples : ℚ)
    let energy_last :=
      if n_samples_last ≠ 0 then
        ((d.drop (n_samples - n_samples_last)).map fabsf).sum / (n_samples_last : ℚ)
      else 0
    if ¬(energy_all < 1 / 10000 ∧ energy_last < 1 / 10000) ∨
        vad_thold * energy_all < energy_last then ⟨false, d⟩
    else ⟨true, d⟩

/-- Mean absolute amplitude of a buffer (the `energy_all` computed by
`vad_simple` over an already-filtered buffer). -/
def energyAllOf (d : List ℚ) : ℚ := (d.map fabsf).sum / (d.length : ℚ)

/-- Model of the tail of `SpeechToText::add_audio_buffer` (source lines
395-404): the already downmixed and resampled chunk is passed through
`vad_simple(data, WHISPER_SAMPLE_RATE, 0, vad_thold, freq_thold)`; when that
returns `false` the (possibly in-place filtered) chunk is appended to the
ingest queue `s_queued_pcmf32`, otherwise the queue is left unchanged. -/
def add_audio_buffer (queue resampled : List ℚ) (vad_thold freq_thold : ℚ) : List ℚ :=
  let v := vad_simple resampled 16000 0 vad_thold freq_thold
  if v.ending then queue else queue ++ v.buf

/-- One whisper token as the scan reads it: its text (UTF-8 bytes) and its end
timestamp `t1` (centiseconds, `int64_t`).  `t0` is never read by the scan. -/
structure TokenData where
  text : List ℕ
  t1 : ℤ
  deriving DecidableEq

/-- State threaded through the token scan of `SpeechToText::run` (source lines
556-607): `msg.text` so far, `delete_target_t`, `find_delete_target_t` and
`target_index`. -/
structure ScanState where
  text : List ℕ
  dtt : ℤ
  found : Bool
  tIdx : ℕ
  deriving DecidableEq

/-- UTF-8 bytes of the literal marker inserted by the scan. -/
def splitMarker : List ℕ := [123, 83, 80, 76, 73, 84, 125]

/-- UTF-8 bytes of the internal tag lead-in checked by `begins_with`. -/
def ttTag : List ℕ := [91, 95, 84, 84, 95]

/-- Godot `String::begins_with` on Latin-1 decoded byte strings. -/
def beginsWith (w p : List ℕ) : Bool := decide (w.take p.length = p)

/-- The split-candidate test of source line 575: the token text starts with
the internal tag lead-in or equals one of the eight clause markers
(`, . ? !` and their full-width CJK forms, as UTF-8 byte strings). -/
def isSplitCandidate (w : List ℕ) : Bool :=
  beginsWith w ttTag || w = [44] || w = [46] || w = [63] || w = [33] ||
    w = [239, 188, 140] || w = [227, 128, 130] || w = [239, 188, 159] ||
    w = [239, 188, 129]

/-- `std::string::insert(i, ins)` on byte strings. -/
def insertAt (i : ℕ) (ins s : List ℕ) : List ℕ := s.take i ++ ins ++ s.drop i

/-- Source line 565: `half_t = cur_last_token.t1 * 1.0 / 2.0` assigned to an
`int64_t`, i.e. the double→int conversion truncates toward zero.  Written so
that both operands of `/` are nonnegative, making the value independent of
Lean's integer-division convention. -/
def halfInt (t : ℤ) : ℤ := if 0 ≤ t then t / 2 else -((-t) / 2)

/-- `half_t` (source lines 561-566): half the end timestamp of the last token
of the last segment, `0` when there are no segments.  A last segment with no
tokens makes the source read token index `-1` (out of bounds); that case is
modelled as `0` and is not relied on by any theorem. -/
def halfTOf (segs : List (List TokenData)) : ℤ :=
  match segs.getLast? with
  | none => 0
  | some lastSeg =>
    match lastSeg.getLast? with
    | none => 0
    | some tok => halfInt tok.t1

/-- One step of the token scan (source lines 569-602).  `target_index` is
recorded as `msg.text.size() + cur_text.length()`; since the Godot string is
Latin-1 decoded, `cur_text.length()` equals the token's byte count, so `tIdx`
is the byte offset just past the candidate's text. -/
def scanStep (ended : Bool) (halfT : ℤ) (st : ScanState) (tok : TokenData) : ScanState :=
  if st.found then { st with text := st.text ++ tok.text }
  else if isSplitCandidate tok.text then
    if tok.t1 < halfT then
      { text := st.text ++ tok.text, dtt := tok.t1, found := false,
        tIdx := st.text.length + tok.text.length }
    else if st.dtt = 0 then
      { text := (st.text ++ tok.text) ++ (if ended then [] else splitMarker),
        dtt := tok.t1, found := true, tIdx := st.tIdx }
    else
      { text := (if ended then st.text else insertAt st.tIdx splitMarker st.text) ++ tok.text,
        dtt := st.dtt, found := true, tIdx := st.tIdx }
  else { st with text := st.text ++ tok.text }

/-- The full token scan: all tokens of all segments in order (source lines
567-603), starting from the given initial `msg.text`. -/
def token_scan (ended : Bool) (segs : List (List TokenData)) (init : List ℕ) : ScanState :=
  (segs.flatten).foldl (scanStep ended (halfTOf segs)) ⟨init, 0, false, 0⟩

/-- The post-scan fix-up (source lines 604-607): if a provisional split point
was recorded and never confirmed, insert the marker at its offset.  Note the
source has no `speech_has_end` guard here. -/
def scan_fixup (st : ScanState) : List ℕ :=
  if st.dtt ≠ 0 ∧ st.found = false then insertAt st.tIdx splitMarker st.text else st.text

/-- The message text produced by one scan over the engine output, starting
from an empty `msg.text`. -/
def scanMessage (ended : Bool) (segs : List (List TokenData)) : List ℕ :=
  scan_fixup (token_scan ended segs [])

/-- Concatenation of the texts of a token list. -/
def concatTexts (toks : List TokenData) : List ℕ := (toks.map TokenData.text).flatten

/-- C-style truncation toward zero of a rational, as a double→int conversion
performs it. -/
def ratTrunc (q : ℚ) : ℤ := if 0 ≤ q then ⌊q⌋ else -(⌊-q⌋)

/-- Source lines 448-449: `n_samples_trigger = (trigger_ms / 1000.0) *
WHISPER_SAMPLE_RATE` with `trigger_ms = 400`; the float product is converted
to `int`.  This constant is computed but never used by the loop's gate. -/
def n_samples_trigger : ℤ := ratTrunc ((400 : ℚ) / 1000 * 16000)

/-- Source lines 457-458: `n_samples_iter_threshold = ((400 * 35) / 1000.0) *
WHISPER_SAMPLE_RATE = 224000`. -/
def n_samples_iter_threshold : ℕ := 224000

/-- The head of each worker-loop iteration (source lines 490-506), given the
queued sample count, the working-window sample count and `empty_iter_count`.
Returns (proceed, new `empty_iter_count`, `need_close_segment`).  The gate
compares the queue against `WHISPER_SAMPLE_RATE` (16000); when below, the
idle counter is incremented, and either closure is forced (counter ≥ 20 and
non-empty window: counter reset to 0, proceed) or the counter is reduced
modulo 20 and the iteration sleeps and restarts. -/
def loop_head_check (queued_len window_len count : ℕ) : Bool × ℕ × Bool :=
  if queued_len < 16000 then
    if 20 ≤ count + 1 ∧ 0 < window_len then (true, 0, true)
    else (false, (count + 1) % 20, false)
  else (true, count, false)

/-- Folds `loop_head_check` over a list of successive queued lengths (the
worker re-checking while idling).  Returns the final counter and whether every
check idled (did not proceed). -/
def idle_checks (window_len : ℕ) : List ℕ → ℕ → ℕ × Bool
  | [], c => (c, true)
  | q :: rest, c =>
    match loop_head_check q window_len c with
    | (false, c2, _) => idle_checks window_len rest c2
    | (true, _, _) => (c, false)

/-- Finalization decision and working-window truncation (source lines
609-637): finalize when the window exceeds `n_samples_iter_threshold * 0.66`
samples or speech has ended (the double product `224000 * 0.66` lies strictly
between 147840 and 147841, so over the integers the comparison below is
exact).  On finalization: if `delete_target_t == 0` or speech ended, the
window becomes `vector(end, end)`, i.e. empty; otherwise it is the suffix from
`int(delete_target_t / 100.0 * 16000)`, or empty when that index reaches the
window length (a negative index converts to a huge `size_t`, also giving the
empty branch).  Returns (`is_partial`, new window). -/
def close_iteration (pcmf32 : List ℚ) (delete_target_t : ℤ) (speech_has_end : Bool) :
    Bool × List ℚ :=
  if (n_samples_iter_threshold : ℚ) * (33 / 50) < (pcmf32.length : ℚ) ∨
      speech_has_end = true then
    if delete_target_t = 0 ∨ speech_has_end = true then (false, [])
    else if ratTrunc ((delete_target_t : ℚ) / 100 * 16000) < 0 ∨
        (pcmf32.length : ℤ) ≤ ratTrunc ((delete_target_t : ℚ) / 100 * 16000) then (false, [])
    else (false, pcmf32.drop (ratTrunc ((delete_target_t : ℚ) / 100 * 16000)).toNat)
  else (true, pcmf32)

/-- The external engine's contribution to one iteration: no context instance,
or a `whisper_full` return code together with the segment/token output read
back from the context. -/
inductive EngineReply where
  | noContext : EngineReply
  | reply (ret : ℤ) (segs : List (List TokenData)) : EngineReply
  deriving DecidableEq

/-- One `transcribed_msg`. -/
structure TranscribedMsg where
  text : List ℕ
  is_partial : Bool
  deriving DecidableEq

/-- Outcome of one pass through the worker-loop body: idled (slept and
restarted without draining), abandoned after draining (null context or engine
error, `continue`), or emitted a message.  Each carries the next iteration's
`empty_iter_count`; `abandoned`/`emitted` carry the working window left for
the next iteration.  The loop itself only terminates via the external
`is_running` flag, never from inside the body. -/
inductive IterOutcome where
  | idle (count : ℕ) : IterOutcome
  | abandoned (window : List ℚ) (count : ℕ) : IterOutcome
  | emitted (msg : TranscribedMsg) (window : List ℚ) (count : ℕ) : IterOutcome
  deriving DecidableEq

/-- One pass through the worker-loop body (source lines 489-654), given the
queued audio, the current working window `pcmf32`, the idle counter, and the
engine's reply for this window.  Order of events, as in the source: head
check; drain the queue into the window; null-context check; `whisper_full`
return-code check; VAD over the trailing 3 s (48000 samples) if available
(on a copy); on `need_close_segment`, VAD over the whole window in place
(line 551: this call high-pass filters `pcmf32` itself when `freq_thold > 0`)
with `msg.text = ""` — a no-op, since `msg.text` is still empty at line 552 —
and `speech_has_end` forced to `true`; the token scan; the post-scan fix-up;
finalization/truncation. -/
def run_iteration (vad_thold freq_thold : ℚ) (queued window : List ℚ) (count : ℕ)
    (engine : EngineReply) : IterOutcome :=
  let head := loop_head_check queued.length window.length count
  let c := head.2.1
  let need_close_segment := head.2.2
  if head.1 = false then .idle c
  else
    let pcmf32 := window ++ queued
    match engine with
    | .noContext => .abandoned pcmf32 c
    | .reply ret segs =>
      if ret ≠ 0 then .abandoned pcmf32 c
      else
        let speech_end_vad :=
          if 48000 ≤ pcmf32.length then
            (vad_simple (pcmf32.drop (pcmf32.length - 48000)) 16000 500
              vad_thold freq_thold).ending
          else false
        let close_vad := vad_simple pcmf32 16000 0 vad_thold freq_thold
        let msg_text_init : List ℕ :=
          if need_close_segment && close_vad.ending then [] else []
        let pcmf32' := if need_close_segment then close_vad.buf else pcmf32
        let speech_has_end := speech_end_vad || need_close_segment
        let st := token_scan speech_has_end segs msg_text_init
        let res := close_iteration pcmf32' st.dtt speech_has_end
        .emitted ⟨scan_fixup st, res.1⟩ res.2 c

/-! ## Helper lemmas about the token scan -/

lemma scanStep_nonCand (e : Bool) (h : ℤ) (st : ScanState) (tok : TokenData)
    (hn : isSplitCandidate tok.text = false) :
    scanStep e h st tok = { st with text := st.text ++ tok.text } := by
  unfold scanStep
  cases hf : st.found
  · simp [hf, hn]
  · simp [hf]

lemma scanStep_found (e : Bool) (h : ℤ) (st : ScanState) (tok : TokenData)
    (hf : st.found = true) :
    scanStep e h st tok = { st with text := st.text ++ tok.text } := by
  unfold scanStep
  simp [hf]

lemma foldl_nonCand (e : Bool) (h : ℤ) (l : List TokenData) :
    ∀ st : ScanState, (∀ t ∈ l, isSplitCandidate t.text = false) →
      List.foldl (scanStep e h) st l = { st with text := st.text ++ concatTexts l } := by
  induction l with
  | nil => intro st _; simp [concatTexts]
  | cons t ts ih =>
    intro st hl
    rw [List.foldl_cons, scanStep_nonCand e h st t (hl t (List.mem_cons_self t ts)),
      ih _ (fun u hu => hl u (List.mem_cons_of_mem t hu))]
    simp [concatTexts, List.append_assoc]

lemma foldl_found (e : Bool) (h : ℤ) (l : List TokenData) :
    ∀ st : ScanState, st.found = true →
      List.foldl (scanStep e h) st l = { st with text := st.text ++ concatTexts l } := by
  induction l with
  | nil => intro st _; simp [concatTexts]
  | cons t ts ih =>
    intro st hf
    rw [List.foldl_cons, scanStep_found e h st t hf, ih _ (by simpa using hf)]
    simp [concatTexts, List.append_assoc]

lemma scanStep_ended_text (h : ℤ) (st : ScanState) (tok : TokenData) :
    (scanStep true h st tok).text = st.text ++ tok.text := by
  unfold scanStep
  split_ifs <;> simp_all

lemma foldl_ended_text (h : ℤ) (l : List TokenData) :
    ∀ st : ScanState, (List.foldl (scanStep true h) st l).text = st.text ++ concatTexts l := by
  induction l with
  | nil => intro st; simp [concatTexts]
  | cons t ts ih =>
    intro st
    rw [List.foldl_cons, ih, scanStep_ended_text]
    simp [concatTexts, List.append_assoc]

/-! ## C1: position of the split marker -/

/-- C1 (counterexample to the claim as stated): the token sequence
`[(",", t1 = 0), (".", t1 = 10)]` (speech not ended) has exactly one
split-candidate token with `t1 < half_t` (`half_t = 5`), followed by a
candidate with `t1 ≥ half_t`; the claim says the marker lands immediately
after the provisional candidate `","`, but because `delete_target_t` keeps its
`0` sentinel when the provisional candidate's `t1` is `0`, the code takes the
no-provisional branch and the marker lands after the confirmed `"."`. -/
theorem c1_counterexample :
    scanMessage false [[⟨[44], 0⟩, ⟨[46], 10⟩]] = [44, 46] ++ splitMarker ∧
    scanMessage false [[⟨[44], 0⟩, ⟨[46], 10⟩]] ≠ [44] ++ splitMarker ++ [46] ∧
    isSplitCandidate [44] = true ∧ isSplitCandidate [46] = true ∧
    halfTOf [[⟨[44], 0⟩, ⟨[46], 10⟩]] = 5 := by
  refine ⟨by decide, by decide, by decide, by decide, by decide⟩

/-- C1 (amended): if the provisional candidate is the first split candidate of
the scan, its `t1` is nonzero (so it does not collide with the `0` sentinel of
`delete_target_t`) and below `half_t`, and a later candidate reaches `half_t`,
then with speech not ended the output is the concatenation of all token texts
with exactly one `{SPLIT}` marker immediately after the provisional
candidate's text. -/
theorem c1_theorem (pre mid post : List TokenData) (prov conf : TokenData)
    (hpre : ∀ t ∈ pre, isSplitCandidate t.text = false)
    (hmid : ∀ t ∈ mid, isSplitCandidate t.text = false)
    (hprov : isSplitCandidate prov.text = true)
    (hne : prov.t1 ≠ 0)
    (hlt : prov.t1 < halfTOf [pre ++ prov :: (mid ++ conf :: post)])
    (hconf : isSplitCandidate conf.text = true)
    (hge : halfTOf [pre ++ prov :: (mid ++ conf :: post)] ≤ conf.t1) :
    scanMessage false [pre ++ prov :: (mid ++ conf :: post)] =
      concatTexts pre ++ prov.text ++ splitMarker ++ concatTexts mid ++ conf.text ++
        concatTexts post := by
  set h := halfTOf [pre ++ prov :: (mid ++ conf :: post)] with hh
  have e1 : List.foldl (scanStep false h) ⟨[], 0, false, 0⟩ pre
      = ⟨concatTexts pre, 0, false, 0⟩ := by
    rw [foldl_nonCand false h pre _ hpre]
    simp
  have e2 : scanStep false h ⟨concatTexts pre, 0, false, 0⟩ prov
      = ⟨concatTexts pre ++ prov.text, prov.t1, false,
          (concatTexts pre).length + prov.text.length⟩ := by
    unfold scanStep
    simp [hprov, hlt]
  have e3 : List.foldl (scanStep false h)
      (⟨concatTexts pre ++ prov.text, prov.t1, false,
        (concatTexts pre).length + prov.text.length⟩ : ScanState) mid
      = ⟨(concatTexts pre ++ prov.text) ++ concatTexts mid, prov.t1, false,
          (concatTexts pre).length + prov.text.length⟩ := by
    rw [foldl_nonCand false h mid _ hmid]
  have e4 : scanStep false h
      (⟨(concatTexts pre ++ prov.text) ++ concatTexts mid, prov.t1, false,
        (concatTexts pre).length + prov.text.length⟩ : ScanState) conf
      = ⟨((concatTexts pre ++ prov.text) ++ splitMarker ++ concatTexts mid) ++ conf.text,
          prov.t1, true, (concatTexts pre).length + prov.text.length⟩ := by
    unfold scanStep
    rw [if_neg (by simp), if_pos hconf, if_neg (not_lt.mpr hge), if_neg hne]
    have einsert : insertAt ((concatTexts pre).length + prov.text.length) splitMarker
        ((concatTexts pre ++ prov.text) ++ concatTexts mid)
        = (concatTexts pre ++ prov.text) ++ splitMarker ++ concatTexts mid := by
      unfold insertAt
      rw [show (concatTexts pre).length + prov.text.length
          = (concatTexts pre ++ prov.text).length by simp]
      rw [List.take_left, List.drop_left]
    simp only [Bool.false_eq_true, if_false, einsert]
  have e5 : List.foldl (scanStep false h)
      (⟨((concatTexts pre ++ prov.text) ++ splitMarker ++ concatTexts mid) ++ conf.text,
        prov.t1, true, (concatTexts pre).length + prov.text.length⟩ : ScanState) post
      = ⟨(((concatTexts pre ++ prov.text) ++ splitMarker ++ concatTexts mid) ++ conf.text)
          ++ concatTexts post, prov.t1, true,
          (concatTexts pre).length + prov.text.length⟩ := by
    rw [foldl_found false h post _ rfl]
  unfold scanMessage token_scan
  rw [show ([pre ++ prov :: (mid ++ conf :: post)] : List (List TokenData)).flatten
      = pre ++ prov :: (mid ++ conf :: post) by simp]
  rw [← hh, List.foldl_append, e1, List.foldl_cons, e2, List.foldl_append, e3,
    List.foldl_cons, e4, e5]
  unfold scan_fixup
  rw [if_neg (by simp)]

/-- C1 (witness): instantiates the amended theorem on the two-token sequence
`[(",", t1 = 1), (".", t1 = 10)]` with speech not ended. -/
theorem c1_witness :
    isSplitCandidate [44] = true ∧ (1 : ℤ) < halfTOf [[⟨[44], 1⟩, ⟨[46], 10⟩]] ∧
    scanMessage false [[⟨[44], 1⟩, ⟨[46], 10⟩]] = [44] ++ splitMarker ++ [46] := by
  refine ⟨by decide, by decide, ?_⟩
  exact c1_theorem [] [] [] ⟨[44], 1⟩ ⟨[46], 10⟩ (by simp) (by simp) (by decide)
    (by decide) (by decide) (by decide) (by decide)

/-! ## C3: markers after speech has ended -/

/-- C3 (counterexample to the claim as stated): with speech judged ended and
the token sequence `[(",", t1 = 1), ("a", t1 = 10)]`, the scan records only a
provisional split point and never confirms it, and the post-scan fix-up
(source lines 604-607) carries no `speech_has_end` guard: the emitted text
does contain a `{SPLIT}` marker. -/
theorem c3_counterexample :
    scanMessage true [[⟨[44], 1⟩, ⟨[97], 10⟩]] = [44] ++ splitMarker ++ [97] ∧
    List.IsInfix splitMarker (scanMessage true [[⟨[44], 1⟩, ⟨[97], 10⟩]]) := by
  refine ⟨by decide, by decide⟩

/-- C3 (amended): when speech has been judged ended, the scan loop itself
never inserts a marker — the scanned text is the plain concatenation of all
token texts — and the emitted message equals that concatenation, except in the
residual case where the scan ends with a nonzero provisional split point and
no confirmed one: there the unguarded post-scan fix-up inserts one marker at
the provisional offset even though speech ended. -/
theorem c3_theorem (segs : List (List TokenData)) :
    ((token_scan true segs []).found = true ∨ (token_scan true segs []).dtt = 0 →
      scanMessage true segs = concatTexts segs.flatten) ∧
    ((token_scan true segs []).found = false → (token_scan true segs []).dtt ≠ 0 →
      scanMessage true segs = insertAt (token_scan true segs []).tIdx splitMarker
        (concatTexts segs.flatten)) := by
  have htext : (token_scan true segs []).text = concatTexts segs.flatten := by
    unfold token_scan
    rw [foldl_ended_text]
    simp
  constructor
  · intro hcase
    unfold scanMessage scan_fixup
    rcases hcase with hf | hd
    · rw [if_neg (by simp [hf]), htext]
    · rw [if_neg (by simp [hd]), htext]
  · intro hf hd
    unfold scanMessage scan_fixup
    rw [if_pos ⟨hd, hf⟩, htext]

/-- C3 (witness): instantiates the amended theorem on a single non-candidate
token with speech ended; the output is the plain token text. -/
theorem c3_witness :
    (token_scan true [[⟨[97], 10⟩]] []).dtt = 0 ∧
    scanMessage true [[⟨[97], 10⟩]] = [97] := by
  refine ⟨by decide, ?_⟩
  exact (c3_theorem [[⟨[97], 10⟩]]).1 (Or.inr (by decide))

/-! ## Helper lemmas about the filter and the VAD -/

lemma hpfGo_length (alpha : ℚ) : ∀ (l : List ℚ) (y p : ℚ), (hpfGo alpha y p l).length = l.length := by
  intro l
  induction l with
  | nil => intro y p; simp [hpfGo]
  | cons x rest ih => intro y p; unfold hpfGo; simp [ih]

lemma high_pass_filter_length (data : List ℚ) (c r : ℚ) :
    (high_pass_filter data c r).length = data.length := by
  cases data with
  | nil => rfl
  | cons x0 rest => unfold high_pass_filter; simp [hpfGo_length]

lemma hpfGo_zero (alpha : ℚ) : ∀ (l : List ℚ) (y : ℚ), (∀ x ∈ l, x = 0) →
    hpfGo alpha y y l = List.map (fun _ => (0 : ℚ)) l := by
  intro l
  induction l with
  | nil => intro y _; simp [hpfGo]
  | cons x rest ih =>
    intro y hz
    have hx : x = 0 := hz x (List.mem_cons_self x rest)
    simp only [hpfGo]
    rw [show alpha * (y + x - y) = 0 by rw [hx]; ring]
    rw [ih 0 (fun u hu => hz u (List.mem_cons_of_mem x hu))]
    simp

lemma high_pass_filter_zero (data : List ℚ) (c r : ℚ) (hz : ∀ x ∈ data, x = 0) :
    ∀ x ∈ high_pass_filter data c r, x = 0 := by
  cases data with
  | nil => simp [high_pass_filter]
  | cons x0 rest =>
    intro x hx
    simp only [high_pass_filter] at hx
    rw [hpfGo_zero _ rest x0 (fun u hu => hz u (List.mem_cons_of_mem x0 hu))] at hx
    rcases List.mem_cons.1 hx with h | h
    · rw [h]; exact hz x0 (List.mem_cons_self x0 rest)
    · obtain ⟨a, -, ha⟩ := List.mem_map.1 h
      exact ha.symm

lemma zero_sum_fabsf (d : List ℚ) (hz : ∀ x ∈ d, x = 0) : (d.map fabsf).sum = 0 := by
  induction d with
  | nil => simp
  | cons x rest ih =>
    have hx : x = 0 := hz x (List.mem_cons_self x rest)
    simp only [List.map_cons, List.sum_cons, hx,
      ih (fun u hu => hz u (List.mem_cons_of_mem x hu))]
    simp [fabsf]

lemma fabsf_nonneg (x : ℚ) : 0 ≤ fabsf x := by
  unfold fabsf
  split_ifs <;> linarith

lemma sum_fabsf_nonneg (d : List ℚ) : 0 ≤ (d.map fabsf).sum := by
  apply List.sum_nonneg
  intro x hx
  obtain ⟨a, -, ha⟩ := List.mem_map.1 hx
  rw [← ha]
  exact fabsf_nonneg a

lemma energyAllOf_nonneg (d : List ℚ) : 0 ≤ energyAllOf d := by
  unfold energyAllOf
  exact div_nonneg (sum_fabsf_nonneg d) (by positivity)

/-! ## C2: VAD on all-zero buffers -/

/-- C2 (counterexample to the claim as stated): the all-zero buffer `[0, 0]`
with `sample_rate = 1000`, `last_ms = 1` (so the recent window has 1 sample,
strictly fewer than the 2 total) makes `vad_simple` return `true`, not
`false`: both energies are `0 < 0.0001`, so `(both < 0.0001) == false` is
false, and `energy_last > vad_thold * energy_all` is `0 > 0`, also false —
the function falls through to `return true`. -/
theorem c2_counterexample :
    (vad_simple [0, 0] 1000 1 (3 / 5) 0).ending = true ∧
    0 < 1000 * 1 / 1000 ∧ 1000 * 1 / 1000 < ([0, 0] : List ℚ).length := by
  refine ⟨by norm_num [vad_simple, fabsf], by norm_num, by norm_num⟩

/-- C2 (amended): near-total silence reports speech-ending as TRUE: on any
all-zero buffer whose recent-window sample count is positive and strictly
smaller than the total count, `vad_simple` returns `true` (for every
`vad_thold` and `freq_thold`).  The 0.0001 boundary is strict: whenever the
(post-filter) mean absolute amplitude is at least 0.0001, `vad_simple`
returns `false`. -/
theorem c2_theorem :
    (∀ (pcm : List ℚ) (rate lastMs : ℕ) (vth fth : ℚ),
      (∀ x ∈ pcm, x = 0) → 0 < rate * lastMs / 1000 → rate * lastMs / 1000 < pcm.length →
      (vad_simple pcm rate lastMs vth fth).ending = true) ∧
    (∀ (pcm : List ℚ) (rate lastMs : ℕ) (vth fth : ℚ),
      rate * lastMs / 1000 < pcm.length →
      1 / 10000 ≤ energyAllOf (if 0 < fth then high_pass_filter pcm fth (rate : ℚ) else pcm) →
      (vad_simple pcm rate lastMs vth fth).ending = false) := by
  constructor
  · intro pcm rate lastMs vth fth hz hpos hlt
    simp only [vad_simple]
    rw [if_neg (by omega)]
    have hzd : ∀ x ∈ (if 0 < fth then high_pass_filter pcm fth (rate : ℚ) else pcm), x = 0 := by
      split_ifs with hf
      · exact high_pass_filter_zero pcm fth (rate : ℚ) hz
      · exact hz
    have hA : (((if 0 < fth then high_pass_filter pcm fth (rate : ℚ) else pcm)).map fabsf).sum
        = 0 := zero_sum_fabsf _ hzd
    have hB : ((((if 0 < fth then high_pass_filter pcm fth (rate : ℚ) else pcm)).drop
        (pcm.length - rate * lastMs / 1000)).map fabsf).sum = 0 :=
      zero_sum_fabsf _ (fun x hx => hzd x (List.mem_of_mem_drop hx))
    rw [hA, hB]
    norm_num
  · intro pcm rate lastMs vth fth hlt hge
    have hlen : (if 0 < fth then high_pass_filter pcm fth (rate : ℚ) else pcm).length
        = pcm.length := by
      split_ifs
      · exact high_pass_filter_length pcm fth (rate : ℚ)
      · rfl
    have hge' : 1 / 10000 ≤
        (((if 0 < fth then high_pass_filter pcm fth (rate : ℚ) else pcm)).map fabsf).sum
          / (pcm.length : ℚ) := by
      unfold energyAllOf at hge
      rwa [hlen] at hge
    simp only [vad_simple]
    rw [if_neg (by omega)]
    rw [if_pos (Or.inl (fun hand => absurd hand.1 (not_lt.2 hge')))]

/-- C2 (witness): instantiates the amended theorem on the all-zero buffer
`[0, 0, 0, 0]` with a 2-sample recent window. -/
theorem c2_witness :
    0 < 1000 * 2 / 1000 ∧ 1000 * 2 / 1000 < ([0, 0, 0, 0] : List ℚ).length ∧
    (vad_simple [0, 0, 0, 0] 1000 2 (3 / 5) 0).ending = true := by
  refine ⟨by norm_num, by norm_num, ?_⟩
  exact c2_theorem.1 [0, 0, 0, 0] 1000 2 (3 / 5) 0 (by simp) (by norm_num) (by norm_num)

/-! ## C4: the high-pass filter recurrence -/

/-- C4 (evaluation at the failing input): with `cutoff = 1/(2π)` and
`sample_rate = 1` (so `rc = 1`, `dt = 1`, `alpha = 1/2`) on the input
`[0, 1, 0]`, the source filter yields `[0, 1/2, 0]` — because at `i = 2` it
reads `data[1]` after having overwritten it with the filtered value — while
the claimed recurrence on raw inputs yields `[0, 1/2, -1/4]`. -/
theorem c4_bug_eval :
    high_pass_filter [0, 1, 0] (1 / (2 * mathPI)) 1 = [0, 1 / 2, 0] ∧
    high_pass_filter_spec [0, 1, 0] (1 / (2 * mathPI)) 1 = [0, 1 / 2, -(1 / 4)] ∧
    high_pass_filter [0, 1, 0] (1 / (2 * mathPI)) 1 ≠
      high_pass_filter_spec [0, 1, 0] (1 / (2 * mathPI)) 1 := by
  have h1 : high_pass_filter [0, 1, 0] (1 / (2 * mathPI)) 1 = [0, 1 / 2, 0] := by
    norm_num [high_pass_filter, hpfGo, mathPI]
  have h2 : high_pass_filter_spec [0, 1, 0] (1 / (2 * mathPI)) 1 = [0, 1 / 2, -(1 / 4)] := by
    norm_num [high_pass_filter_spec, hpfSpecGo, mathPI]
  refine ⟨h1, h2, ?_⟩
  rw [h1, h2]
  intro heq
  norm_num at heq

/-! ## C10: the producer-side ingest gate -/

/-- C10 (counterexample to the claim as stated): with `freq_thold = 8000/π`
(so `alpha = 1/2`) the chunk `[0, 1]` passes the gate (its filtered mean
absolute amplitude is `1/4 ≥ 0.0001`), but what is appended is the in-place
FILTERED chunk `[0, 1/2]`, not the resampled chunk `[0, 1]`. -/
theorem c10_counterexample :
    add_audio_buffer [] [0, 1] (3 / 5) (8000 / mathPI) = [0, 1 / 2] ∧
    add_audio_buffer [] [0, 1] (3 / 5) (8000 / mathPI) ≠ [] ++ [0, 1] ∧
    energyAllOf ((vad_simple [0, 1] 16000 0 (3 / 5) (8000 / mathPI)).buf) = 1 / 4 := by
  refine ⟨?_, ?_, ?_⟩ <;>
    norm_num [add_audio_buffer, vad_simple, high_pass_filter, hpfGo, mathPI, fabsf,
      energyAllOf]

/-- C10 (amended): for a nonempty resampled chunk and a nonnegative
`vad_thold`, the gate tests the chunk with a zero-sample recent window (no
division happens: `energy_last` stays 0); writing `d` for the chunk after the
in-place filtering (`high_pass_filter` applied exactly when `freq_thold > 0`),
the whole chunk is discarded when `d`'s mean absolute amplitude is below
0.0001, and otherwise every sample of `d` — the filtered chunk, not the raw
resampled one — is appended to the queue in order. -/
theorem c10_theorem (queue resampled : List ℚ) (vth fth : ℚ)
    (hv : 0 ≤ vth) (hne : resampled ≠ []) :
    (vad_simple resampled 16000 0 vth fth).buf =
      (if 0 < fth then high_pass_filter resampled fth ((16000 : ℕ) : ℚ) else resampled) ∧
    (energyAllOf ((vad_simple resampled 16000 0 vth fth).buf) < 1 / 10000 →
      add_audio_buffer queue resampled vth fth = queue) ∧
    (1 / 10000 ≤ energyAllOf ((vad_simple resampled 16000 0 vth fth).buf) →
      add_audio_buffer queue resampled vth fth =
        queue ++ (if 0 < fth then high_pass_filter resampled fth ((16000 : ℕ) : ℚ)
          else resampled)) := by
  have hlen0 : ¬(resampled.length ≤ 16000 * 0 / 1000) := by
    have hpos : 0 < resampled.length := List.length_pos.2 hne
    omega
  have hbuf : (vad_simple resampled 16000 0 vth fth).buf =
      (if 0 < fth then high_pass_filter resampled fth ((16000 : ℕ) : ℚ) else resampled) := by
    simp only [vad_simple]
    rw [if_neg hlen0]
    rw [apply_ite VadOut.buf]
    simp
  have hlen : (if 0 < fth then high_pass_filter resampled fth ((16000 : ℕ) : ℚ)
      else resampled).length = resampled.length := by
    split_ifs
    · exact high_pass_filter_length resampled fth _
    · rfl
  refine ⟨hbuf, ?_, ?_⟩
  · intro hsmall
    rw [hbuf] at hsmall
    unfold energyAllOf at hsmall
    rw [hlen] at hsmall
    have hend : (vad_simple resampled 16000 0 vth fth).ending = true := by
      simp only [vad_simple]
      rw [if_neg hlen0]
      norm_num
      rw [if_neg (not_or.2 ⟨not_le.2 (by simpa using hsmall),
        not_lt.2 (mul_nonneg hv (div_nonneg (sum_fabsf_nonneg _) (by positivity)))⟩)]
    simp only [add_audio_buffer]
    rw [hend]
    rfl
  · intro hbig
    rw [hbuf] at hbig
    unfold energyAllOf at hbig
    rw [hlen] at hbig
    have hend : (vad_simple resampled 16000 0 vth fth).ending = false := by
      simp only [vad_simple]
      rw [if_neg hlen0]
      norm_num
      rw [if_pos (Or.inl (by simpa using hbig))]
    simp only [add_audio_buffer]
    rw [hend]
    simp [hbuf]

/-- C10 (witness): instantiates the amended theorem on the chunk `[1, 1]`
with `freq_thold = 0` (no filtering): the mean is `1 ≥ 0.0001`, so the chunk
is appended unchanged. -/
theorem c10_witness :
    (0 : ℚ) ≤ 3 / 5 ∧ ([1, 1] : List ℚ) ≠ [] ∧
    add_audio_buffer [] [1, 1] (3 / 5) 0 = [] ++ [1, 1] := by
  refine ⟨by norm_num, by simp, ?_⟩
  have h := (c10_theorem [] [1, 1] (3 / 5) 0 (by norm_num) (by simp)).2.2
  rw [if_neg (by norm_num)] at h
  exact h (by norm_num [energyAllOf, vad_simple, fabsf])

/-! ## C5: the iteration trigger -/

/-- C5 (counterexample to the claim as stated): `n_samples_trigger` is 6400
(400 ms at 16 kHz), but a head check with exactly 6400 queued samples and no
forced close pending does NOT proceed: the gate at source line 493 compares
against `WHISPER_SAMPLE_RATE` (16000), so the worker idles and increments its
idle counter instead. -/
theorem c5_counterexample :
    n_samples_trigger = 6400 ∧
    loop_head_check 6400 1 0 = (false, 1, false) := by
  constructor
  · unfold n_samples_trigger ratTrunc
    rw [if_pos (by norm_num)]
    rw [show (400 : ℚ) / 1000 * 16000 = ((6400 : ℤ) : ℚ) by norm_num]
    exact Int.floor_intCast 6400
  · decide

/-- C5 (amended): the gate is `WHISPER_SAMPLE_RATE` = 16000 samples (1 s of
audio), not `n_samples_trigger` (6400, which is computed but never used by
the check): with at least 16000 queued samples the head check proceeds with
the idle counter unchanged and no forced close; below 16000, unless the
forced-close condition fires (counter reaching 20 with a non-empty window),
the check idles and the counter advances to `(count + 1) % 20`; below 16000
with the forced-close condition met, the check proceeds with forced close and
the counter reset to 0. -/
theorem c5_theorem :
    (∀ q w c : ℕ, 16000 ≤ q → loop_head_check q w c = (true, c, false)) ∧
    (∀ q w c : ℕ, q < 16000 → ¬(20 ≤ c + 1 ∧ 0 < w) →
      loop_head_check q w c = (false, (c + 1) % 20, false)) ∧
    (∀ q w c : ℕ, q < 16000 → 20 ≤ c + 1 → 0 < w →
      loop_head_check q w c = (true, 0, true)) := by
  refine ⟨?_, ?_, ?_⟩
  · intro q w c hq
    unfold loop_head_check
    rw [if_neg (by omega)]
  · intro q w c hq hnc
    unfold loop_head_check
    rw [if_pos hq, if_neg hnc]
  · intro q w c hq h20 hw
    unfold loop_head_check
    rw [if_pos hq, if_pos ⟨h20, hw⟩]

/-- C5 (witness): instantiates the amended theorem at exactly 16000 queued
samples. -/
theorem c5_witness :
    16000 ≤ 16000 ∧ loop_head_check 16000 3 7 = (true, 7, false) :=
  ⟨le_refl 16000, c5_theorem.1 16000 3 7 (le_refl 16000)⟩

/-! ## C6: finalization truncation -/

lemma close_iteration_ended_partial (pcm : List ℚ) (d : ℤ) :
    (close_iteration pcm d true).1 = false := by
  unfold close_iteration
  rw [if_pos (Or.inr rfl)]
  split_ifs <;> rfl

/-- C6: on a finalizing iteration (window over 66% of the iteration threshold
or speech ended), `is_partial` is false and the window is truncated: to the
empty list when no split point was recorded (`delete_target_t = 0`) or speech
ended; otherwise to its suffix from sample index
`floor(delete_target_t / 100 * 16000)`, or to the empty list when that index
is at or beyond the window length. -/
theorem c6_theorem (pcm : List ℚ) (dtt : ℤ) (ended : Bool) (hd : 0 ≤ dtt)
    (hfin : (n_samples_iter_threshold : ℚ) * (33 / 50) < (pcm.length : ℚ) ∨ ended = true) :
    (close_iteration pcm dtt ended).1 = false ∧
    (close_iteration pcm dtt ended).2 =
      (if dtt = 0 ∨ ended = true then ([] : List ℚ)
       else if ⌊(dtt : ℚ) / 100 * 16000⌋ < (pcm.length : ℤ) then
         pcm.drop (⌊(dtt : ℚ) / 100 * 16000⌋).toNat
       else []) := by
  have hcast : (dtt : ℚ) / 100 * 16000 = ((160 * dtt : ℤ) : ℚ) := by
    push_cast
    ring
  have hfloor : (⌊(dtt : ℚ) / 100 * 16000⌋ : ℤ) = 160 * dtt := by
    rw [hcast]
    exact Int.floor_intCast _
  have htr : ratTrunc ((dtt : ℚ) / 100 * 16000) = 160 * dtt := by
    unfold ratTrunc
    rw [if_pos (by rw [hcast]; exact_mod_cast mul_nonneg (by norm_num) hd)]
    exact hfloor
  unfold close_iteration
  rw [if_pos hfin]
  by_cases h0 : dtt = 0 ∨ ended = true
  · rw [if_pos h0, if_pos h0]
    exact ⟨rfl, rfl⟩
  · rw [if_neg h0, if_neg h0, htr, hfloor]
    have h160 : (0 : ℤ) ≤ 160 * dtt := mul_nonneg (by norm_num) hd
    by_cases hlen : (pcm.length : ℤ) ≤ 160 * dtt
    · rw [if_pos (Or.inr hlen), if_neg (not_lt.2 hlen)]
      exact ⟨rfl, rfl⟩
    · rw [if_neg (not_or.2 ⟨not_lt.2 h160, hlen⟩), if_pos (lt_of_not_le hlen)]
      exact ⟨rfl, rfl⟩

/-- C6 (witness): instantiates the theorem on a one-sample window with speech
ended and no recorded split point: the window is reset to empty and the
message finalized. -/
theorem c6_witness :
    (0 : ℤ) ≤ 0 ∧ (close_iteration [0] 0 true).1 = false ∧
    (close_iteration [0] 0 true).2 = [] := by
  have h := c6_theorem [0] 0 true (le_refl 0) (Or.inr rfl)
  refine ⟨le_refl 0, h.1, ?_⟩
  rw [h.2]
  simp

/-! ## C7: forced close after idle -/

lemma idle_checks_run (w : ℕ) :
    ∀ (qls : List ℕ) (c : ℕ), (∀ q ∈ qls, q < 16000) → c + qls.length ≤ 19 →
      idle_checks w qls c = (c + qls.length, true) := by
  intro qls
  induction qls with
  | nil => intro c _ _; simp [idle_checks]
  | cons q rest ih =>
    intro c hq hc
    have hc' : c + (rest.length + 1) ≤ 19 := by simpa using hc
    have hstep : loop_head_check q w c = (false, (c + 1) % 20, false) := by
      unfold loop_head_check
      rw [if_pos (hq q (List.mem_cons_self q rest)), if_neg (by omega)]
    simp only [idle_checks, hstep]
    rw [show (c + 1) % 20 = c + 1 from Nat.mod_eq_of_lt (by omega)]
    rw [ih (c + 1) (fun u hu => hq u (List.mem_cons_of_mem q hu)) (by omega)]
    have : c + 1 + rest.length = c + (q :: rest).length := by simp; omega
    rw [this]

/-- C7: starting from idle counter 0 with a non-empty working window, 19
consecutive head checks that each find fewer than 16000 queued samples all
idle, advancing the counter to 19; the 20th such check proceeds with forced
close and the counter reset to 0; when the window is empty the counter instead
wraps modulo 20 (19 → 0) without forcing closure; and an iteration whose head
check forces closure, with the engine succeeding, emits a message with
`is_partial = false` and next counter 0 even though no trigger-sized audio
arrived. -/
theorem c7_theorem :
    (∀ (w : ℕ) (qls : List ℕ), 0 < w → qls.length = 19 → (∀ q ∈ qls, q < 16000) →
      idle_checks w qls 0 = (19, true)) ∧
    (∀ w q : ℕ, 0 < w → q < 16000 → loop_head_check q w 19 = (true, 0, true)) ∧
    (∀ q : ℕ, q < 16000 → loop_head_check q 0 19 = (false, 0, false)) ∧
    (∀ (vth fth : ℚ) (queued window : List ℚ) (segs : List (List TokenData)),
      window ≠ [] → queued.length < 16000 →
      ∃ m w2, run_iteration vth fth queued window 19 (.reply 0 segs) = .emitted m w2 0 ∧
        m.is_partial = false) := by
  refine ⟨?_, ?_, ?_, ?_⟩
  · intro w qls hw hlen hq
    have h := idle_checks_run w qls 0 hq (by omega)
    rw [h, hlen]
  · intro w q hw hq
    unfold loop_head_check
    rw [if_pos hq, if_pos ⟨by omega, hw⟩]
  · intro q hq
    unfold loop_head_check
    rw [if_pos hq, if_neg (by omega)]
  · intro vth fth queued window segs hw hq
    have hhead : loop_head_check queued.length window.length 19 = (true, 0, true) := by
      unfold loop_head_check
      rw [if_pos hq, if_pos ⟨by omega, List.length_pos.2 hw⟩]
    simp only [run_iteration, hhead]
    norm_num
    exact close_iteration_ended_partial _ _

/-- C7 (witness): instantiates the theorem with a one-sample window and 19
empty-queue checks, then the 20th; and the modulo-20 wrap with an empty
window. -/
theorem c7_witness :
    idle_checks 1 (List.replicate 19 0) 0 = (19, true) ∧
    loop_head_check 0 1 19 = (true, 0, true) ∧
    loop_head_check 0 0 19 = (false, 0, false) := by
  refine ⟨?_, ?_, ?_⟩
  · exact c7_theorem.1 1 (List.replicate 19 0) (by decide) (by simp) (by simp)
  · exact c7_theorem.2.1 1 0 (by decide) (by decide)
  · exact c7_theorem.2.2.1 0 (by decide)

/-! ## C8: the silent forced-close text discard -/

/-- C8 (evaluation at the failing input): a forced-close iteration (idle
counter 19, empty queue, non-empty all-zero window, so the whole-window VAD
reports near-silence) whose engine reply carries one token `"a"` emits a
FINALIZED message whose text is `"a"`, not the empty string: the
`msg.text = ""` assignment at source line 552 happens before the token scan
builds the text, so it clears nothing. -/
theorem c8_bug_eval :
    run_iteration (3 / 5) 0 [] [0] 19 (.reply 0 [[⟨[97], 5⟩]]) =
      .emitted ⟨[97], false⟩ [] 0 ∧ ([97] : List ℕ) ≠ [] := by
  constructor
  · norm_num [run_iteration, loop_head_check, vad_simple, fabsf, token_scan, scanStep,
      halfTOf, halfInt, scan_fixup, close_iteration, isSplitCandidate, beginsWith, ttTag,
      insertAt, ratTrunc, n_samples_iter_threshold, splitMarker]
  · decide

/-! ## C9: engine-failure atomicity -/

/-- C9: in any iteration whose head check proceeds, a missing engine context
or a nonzero `whisper_full` return code abandons the iteration: no message is
emitted, the working window is exactly the old window with the drained queue
appended, and the loop goes on to its next iteration (the loop only exits via
the external stop flag). -/
theorem c9_theorem :
    (∀ (vth fth : ℚ) (queued window : List ℚ) (c : ℕ),
      (loop_head_check queued.length window.length c).1 = true →
      run_iteration vth fth queued window c .noContext =
        .abandoned (window ++ queued) (loop_head_check queued.length window.length c).2.1) ∧
    (∀ (vth fth : ℚ) (queued window : List ℚ) (c : ℕ) (ret : ℤ)
        (segs : List (List TokenData)),
      (loop_head_check queued.length window.length c).1 = true → ret ≠ 0 →
      run_iteration vth fth queued window c (.reply ret segs) =
        .abandoned (window ++ queued) (loop_head_check queued.length window.length c).2.1) := by
  constructor
  · intro vth fth queued window c hp
    simp [run_iteration, hp]
  · intro vth fth queued window c ret segs hp hr
    simp [run_iteration, hp, hr]

/-- C9 (witness): instantiates both failure modes at a forced-close head
check: the window keeps the drained audio and no message is emitted. -/
theorem c9_witness :
    (loop_head_check ([] : List ℚ).length ([0] : List ℚ).length 19).1 = true ∧
    run_iteration (3 / 5) 0 [] [0] 19 .noContext = .abandoned ([0] ++ []) 0 ∧
    run_iteration (3 / 5) 0 [] [0] 19 (.reply 7 []) = .abandoned ([0] ++ []) 0 := by
  refine ⟨by decide, ?_, ?_⟩
  · exact c9_theorem.1 (3 / 5) 0 [] [0] 19 (by decide)
  · exact c9_theorem.2 (3 / 5) 0 [] [0] 19 7 [] (by decide) (by decide)
